import Mathlib

/-!
Shallow embedding of the button event engine in `src/buttons.c` of the
buttons-sdk repository.  Timestamps are `uint32_t` millisecond readings of a
monotonic clock; the C code subtracts them with unsigned wraparound, which we
model with `sub32`.  The per-line state `btn_state_t`, the edge callback
`global_alert`, the scanner loop body in `worker`, and the query
`btns_is_pressed` are translated directly from the source.
-/

/-- Unsigned 32-bit subtraction `a - b` as C computes it on `uint32_t`. -/
def sub32 (a b : Nat) : Nat :=
  (a % 4294967296 + 4294967296 - b % 4294967296) % 4294967296

/-- The event kinds of `btn_event_t` in `buttons.h`:
PRESS, RELEASE, CLICK, HOLD, REPEAT. -/
inductive BtnEvent where
  | press
  | release
  | click
  | hold
  | repeatE
deriving DecidableEq, Repr

/-- Per-line runtime state, `btn_state_t` in `buttons.c` (the `pull` field is
configuration decided in `btns_create`, lines 102-107). -/
structure BtnState where
  gpio : Nat
  pull : Nat
  active_low : Bool
  pressed : Bool
  last_edge_ms : Nat
  down_ms : Nat
  hold_fired : Bool
  last_repeat_ms : Nat
deriving DecidableEq, Repr

/-- The timing fields of `btns_config_t` in `buttons.h` plus the line count;
`repeat_ms = 0` disables auto-repeat. -/
structure BtnsConfig where
  debounce_ms : Nat
  hold_ms : Nat
  repeat_ms : Nat
  count : Nat
deriving DecidableEq, Repr

/-- One line's transition on a raw edge: the body of `global_alert`
(buttons.c lines 39-64) after the line has been located, with the emitted
events collected in order of the `on_event` calls. -/
def edgeStep (cfg : BtnsConfig) (b : BtnState) (level : Nat) (t : Nat) :
    BtnState × List BtnEvent :=
  if sub32 t b.last_edge_ms < cfg.debounce_ms then (b, [])
  else
    let b := { b with last_edge_ms := t }
    let logical_press := if b.active_low then level == 0 else level == 1
    if logical_press then
      ({ b with pressed := true, down_ms := t, hold_fired := false,
                last_repeat_ms := t },
       [BtnEvent.press])
    else
      let was := b.pressed
      let b := { b with pressed := false }
      if was then
        let dur := sub32 t b.down_ms
        if dur < cfg.hold_ms then (b, [BtnEvent.release, BtnEvent.click])
        else (b, [BtnEvent.release])
      else (b, [])

/-- The linear search of `find_index` (buttons.c lines 26-30), returning the
index together with the matching state instead of `-1` / an index. -/
def findBtn : List BtnState → Nat → Nat → Option (Nat × BtnState)
  | [], _, _ => none
  | b :: rest, gpio, i =>
      if b.gpio == gpio then some (i, b) else findBtn rest gpio (i + 1)

/-- The whole `global_alert` callback (buttons.c lines 32-65) over the table
of per-line states: locate the line by gpio, silently drop the edge when the
gpio is unknown, otherwise run the per-line transition and tag emitted events
with the line index. -/
def global_alert (cfg : BtnsConfig) (st : List BtnState)
    (gpio level t : Nat) : List BtnState × List (BtnEvent × Nat) :=
  match findBtn st gpio 0 with
  | none => (st, [])
  | some (idx, b) =>
      let r := edgeStep cfg b level t
      (st.set idx r.1, r.2.map (fun e => (e, idx)))

/-- One line's transition on a scanner tick: the loop body of `worker`
(buttons.c lines 74-87) at tick time `t`. -/
def tickStep (cfg : BtnsConfig) (b : BtnState) (t : Nat) :
    BtnState × List BtnEvent :=
  if b.pressed then
    let held := sub32 t b.down_ms
    let r1 :=
      if !b.hold_fired && decide (held ≥ cfg.hold_ms) then
        ({ b with hold_fired := true, last_repeat_ms := t }, [BtnEvent.hold])
      else (b, ([] : List BtnEvent))
    let b1 := r1.1
    if b1.hold_fired && cfg.repeat_ms != 0 then
      if sub32 t b1.last_repeat_ms ≥ cfg.repeat_ms then
        ({ b1 with last_repeat_ms := t }, r1.2 ++ [BtnEvent.repeatE])
      else (b1, r1.2)
    else (b1, r1.2)
  else (b, [])

/-- Iterate the scanner over a list of tick times on one line, concatenating
the emitted events in order. -/
def runTicks (cfg : BtnsConfig) (b : BtnState) : List Nat → BtnState × List BtnEvent
  | [] => (b, [])
  | t :: ts =>
      let r1 := tickStep cfg b t
      let r2 := runTicks cfg r1.1 ts
      (r2.1, r1.2 ++ r2.2)

/-- Feed a list of raw edges `(level, time)` to one line in arrival order,
concatenating the emitted events. -/
def runEdges (cfg : BtnsConfig) (b : BtnState) :
    List (Nat × Nat) → BtnState × List BtnEvent
  | [] => (b, [])
  | e :: es =>
      let r1 := edgeStep cfg b e.1 e.2
      let r2 := runEdges cfg r1.1 es
      (r2.1, r1.2 ++ r2.2)

/-- The initial per-line state built by `btns_create` (buttons.c lines
98-107): the table comes from `calloc`, so every field not explicitly
assigned — `pressed`, `last_edge_ms`, `down_ms`, `hold_fired`,
`last_repeat_ms` — is zero. -/
def initState (gpio : Nat) (active_low enable_pull : Bool) : BtnState :=
  { gpio := gpio
    pull := if enable_pull then (if active_low then 1 else 2) else 0
    active_low := active_low
    pressed := false
    last_edge_ms := 0
    down_ms := 0
    hold_fired := false
    last_repeat_ms := 0 }

/-- An engine context: the configuration plus the per-line state table, as in
`struct btns_ctx`. -/
structure BtnsCtx where
  cfg : BtnsConfig
  st : List BtnState
deriving DecidableEq, Repr

/-- The query `btns_is_pressed` (buttons.c lines 140-143): out-of-range indices return
`false`; in range, the debounced `pressed` flag is returned. -/
def btns_is_pressed (ctx : BtnsCtx) (index : Nat) : Bool :=
  if index ≥ ctx.cfg.count then false
  else ((ctx.st.get? index).map BtnState.pressed).getD false

/-- Error type named by the spec for contract violations. -/
inductive BtnsError where
  | invalidIndex
deriving DecidableEq, Repr

/-- Modelled from the spec: section 7 requires that `is_pressed` with an
out-of-range index "signals an `InvalidIndex` error rather than undefined
behavior".  This is the spec's version of the query, used to compare against
the code's `btns_is_pressed`, which has no error channel. -/
def is_pressed_spec (ctx : BtnsCtx) (index : Nat) : Except BtnsError Bool :=
  if index ≥ ctx.cfg.count then Except.error BtnsError.invalidIndex
  else Except.ok (((ctx.st.get? index).map BtnState.pressed).getD false)

/-! ## Concrete fixtures used by counterexamples and witnesses -/

/-- A configuration with debounce 12 ms, hold 600 ms, repeat disabled. -/
def cfg0 : BtnsConfig := { debounce_ms := 12, hold_ms := 600, repeat_ms := 0, count := 1 }

/-- A configuration with debounce 12 ms, hold 600 ms, repeat 200 ms. -/
def cfgR : BtnsConfig := { debounce_ms := 12, hold_ms := 600, repeat_ms := 200, count := 1 }

/-- The initial state of a line on gpio 25, active-high, no pull. -/
def line0 : BtnState := initState 25 false false

/-- State of `line0` after an accepted press edge at t = 100. -/
def linePressed : BtnState := (edgeStep cfg0 line0 1 100).1

/-- State of `linePressed` after the scanner tick at t = 700 (HOLD fires). -/
def lineHeld : BtnState := (tickStep cfg0 linePressed 700).1

/-- State of `lineHeld` after an accepted release edge at t = 800. -/
def lineAfterRelease : BtnState := (edgeStep cfg0 lineHeld 0 800).1

/-- A one-line engine context built from `cfg0` and `line0`. -/
def ctx0 : BtnsCtx := { cfg := cfg0, st := [line0] }

/-! ## Arithmetic helpers for the 32-bit monotonic clock -/

theorem sub32_self (a : Nat) : sub32 a a = 0 := by
  unfold sub32; omega

theorem sub32_of_le (a b : Nat) (hb : b ≤ a) (ha : a < 4294967296) :
    sub32 a b = a - b := by
  unfold sub32; omega

/-! ## Single-tick characterisation of the scanner loop body -/

theorem tickStep_idle (cfg : BtnsConfig) (b : BtnState) (t : Nat)
    (h : b.pressed = false) : tickStep cfg b t = (b, []) := by
  unfold tickStep; simp [h]

theorem tickStep_waiting (cfg : BtnsConfig) (b : BtnState) (t : Nat)
    (hp : b.pressed = true) (hf : b.hold_fired = false)
    (hlt : sub32 t b.down_ms < cfg.hold_ms) :
    tickStep cfg b t = (b, []) := by
  unfold tickStep
  simp [hp, hf, Nat.not_le.mpr hlt]

theorem tickStep_fires (cfg : BtnsConfig) (b : BtnState) (t : Nat)
    (hp : b.pressed = true) (hf : b.hold_fired = false)
    (hge : cfg.hold_ms ≤ sub32 t b.down_ms) :
    tickStep cfg b t =
      ({ b with hold_fired := true, last_repeat_ms := t }, [BtnEvent.hold]) := by
  unfold tickStep
  simp [hp, hf, hge, sub32_self]

theorem tickStep_repeat (cfg : BtnsConfig) (b : BtnState) (t : Nat)
    (hp : b.pressed = true) (hf : b.hold_fired = true)
    (hr : cfg.repeat_ms ≠ 0) (hge : cfg.repeat_ms ≤ sub32 t b.last_repeat_ms) :
    tickStep cfg b t = ({ b with last_repeat_ms := t }, [BtnEvent.repeatE]) := by
  unfold tickStep
  simp [hp, hf, hr, hge]

theorem tickStep_holding_wait (cfg : BtnsConfig) (b : BtnState) (t : Nat)
    (hp : b.pressed = true) (hf : b.hold_fired = true)
    (h : cfg.repeat_ms = 0 ∨ sub32 t b.last_repeat_ms < cfg.repeat_ms) :
    tickStep cfg b t = (b, []) := by
  unfold tickStep
  rcases h with h | h
  · simp [hp, hf, h]
  · simp [hp, hf, Nat.not_le.mpr h]

theorem tickStep_down_ms (cfg : BtnsConfig) (b : BtnState) (t : Nat) :
    (tickStep cfg b t).1.down_ms = b.down_ms := by
  simp only [tickStep]
  split_ifs <;> rfl

theorem tickStep_pressed (cfg : BtnsConfig) (b : BtnState) (t : Nat) :
    (tickStep cfg b t).1.pressed = b.pressed := by
  simp only [tickStep]
  split_ifs <;> rfl

theorem tickStep_hold_fired_true (cfg : BtnsConfig) (b : BtnState) (t : Nat)
    (h : b.hold_fired = true) : (tickStep cfg b t).1.hold_fired = true := by
  simp only [tickStep]
  split_ifs <;> simp_all

/-! ## Invariants of iterated scanner ticks -/

theorem runTicks_down_ms (cfg : BtnsConfig) (b : BtnState) (ts : List Nat) :
    (runTicks cfg b ts).1.down_ms = b.down_ms := by
  induction ts generalizing b with
  | nil => rfl
  | cons t ts ih => simp [runTicks, ih, tickStep_down_ms]

theorem runTicks_pressed (cfg : BtnsConfig) (b : BtnState) (ts : List Nat) :
    (runTicks cfg b ts).1.pressed = b.pressed := by
  induction ts generalizing b with
  | nil => rfl
  | cons t ts ih => simp [runTicks, ih, tickStep_pressed]

theorem runTicks_append (cfg : BtnsConfig) (b : BtnState) (ts₁ ts₂ : List Nat) :
    runTicks cfg b (ts₁ ++ ts₂) =
      ((runTicks cfg (runTicks cfg b ts₁).1 ts₂).1,
       (runTicks cfg b ts₁).2 ++ (runTicks cfg (runTicks cfg b ts₁).1 ts₂).2) := by
  induction ts₁ generalizing b with
  | nil => simp [runTicks]
  | cons t ts ih => simp [runTicks, ih]

theorem findBtn_eq_none (st : List BtnState) (gpio i : Nat)
    (h : ∀ b ∈ st, b.gpio ≠ gpio) : findBtn st gpio i = none := by
  induction st generalizing i with
  | nil => rfl
  | cons b rest ih =>
      have hb := h b (List.mem_cons_self b rest)
      simp [findBtn, hb]
      exact ih _ (fun x hx => h x (List.mem_cons_of_mem b hx))

/-- C6: a raw edge arriving within `debounce_ms` of the previously accepted
edge on the same line is ignored regardless of its direction: no event is
emitted and the whole per-line state is returned unchanged, `last_edge_ms`
included. -/
theorem debounce_window_rejects_edge (cfg : BtnsConfig) (b : BtnState)
    (level t : Nat) (h : sub32 t b.last_edge_ms < cfg.debounce_ms) :
    edgeStep cfg b level t = (b, []) := by
  unfold edgeStep; simp [h]

theorem debounce_window_rejects_edge_witness :
    edgeStep cfg0 linePressed 0 105 = (linePressed, []) :=
  debounce_window_rejects_edge cfg0 linePressed 0 105 (by decide)

/-- C9: an edge whose gpio matches no registered line is silently dropped by
`global_alert`: the state table is unchanged and nothing is emitted. -/
theorem unknown_gpio_silently_dropped (cfg : BtnsConfig) (st : List BtnState)
    (gpio level t : Nat) (h : ∀ b ∈ st, b.gpio ≠ gpio) :
    global_alert cfg st gpio level t = (st, []) := by
  unfold global_alert
  rw [findBtn_eq_none st gpio 0 h]

theorem unknown_gpio_silently_dropped_witness :
    global_alert cfg0 [line0] 99 1 100 = ([line0], []) :=
  unknown_gpio_silently_dropped cfg0 [line0] 99 1 100 (by decide)

/-- C10: `btns_create` zero-initialises the state table, so `last_edge_ms`
starts at 0 and the very first edge on a line is dropped by the debounce
gate whenever its timestamp satisfies `now < debounce_ms`: time zero acts as
a phantom prior edge. -/
theorem first_edge_phantom_debounce (cfg : BtnsConfig) (gpio : Nat)
    (al ep : Bool) (level now : Nat) (h : now < cfg.debounce_ms)
    (h32 : now < 4294967296) :
    (initState gpio al ep).last_edge_ms = 0 ∧
    edgeStep cfg (initState gpio al ep) level now = (initState gpio al ep, []) := by
  refine ⟨rfl, ?_⟩
  have hs : sub32 now (initState gpio al ep).last_edge_ms < cfg.debounce_ms := by
    show sub32 now 0 < cfg.debounce_ms
    unfold sub32; omega
  unfold edgeStep; simp [hs]

theorem first_edge_phantom_debounce_witness :
    (initState 25 false false).last_edge_ms = 0 ∧
    edgeStep cfg0 (initState 25 false false) 1 5 = (initState 25 false false, []) :=
  first_edge_phantom_debounce cfg0 25 false false 1 5 (by decide) (by decide)

/-- C8 counterexample: at the concrete out-of-range index 1 (count = 1), the
spec-modelled query signals `InvalidIndex`, but the code's `btns_is_pressed`
returns the plain boolean `false` — no error is signalled. -/
theorem is_pressed_returns_false_cex :
    is_pressed_spec ctx0 1 = Except.error BtnsError.invalidIndex ∧
    btns_is_pressed ctx0 1 = false ∧
    Except.ok (btns_is_pressed ctx0 1) ≠ is_pressed_spec ctx0 1 := by
  refine ⟨rfl, rfl, ?_⟩
  intro h
  simp [btns_is_pressed, is_pressed_spec, ctx0, cfg0] at h

/-- C8 amended: `btns_is_pressed` with an index at or beyond the configured
count returns `false` (a safe in-band default) without undefined behaviour;
no `InvalidIndex` error is signalled. -/
theorem is_pressed_out_of_range_false (ctx : BtnsCtx) (index : Nat)
    (h : ctx.cfg.count ≤ index) : btns_is_pressed ctx index = false := by
  unfold btns_is_pressed; simp [h]

theorem is_pressed_out_of_range_false_witness :
    btns_is_pressed ctx0 1 = false :=
  is_pressed_out_of_range_false ctx0 1 (by decide)

/-- C1 counterexample: `linePressed` is reachable (press accepted at t = 100)
and already logically pressed; a second logical-press edge at t = 200 passes
the debounce gate, yet it emits PRESS again and changes the state
(`down_ms` restarts), so it is not a no-op, and two PRESS events occur with
no RELEASE between them. -/
theorem press_while_pressed_not_noop_cex :
    linePressed.pressed = true ∧
    cfg0.debounce_ms ≤ sub32 200 linePressed.last_edge_ms ∧
    (edgeStep cfg0 linePressed 1 200).2 = [BtnEvent.press] ∧
    (edgeStep cfg0 linePressed 1 200).1 ≠ linePressed ∧
    (runEdges cfg0 line0 [(1, 100), (1, 200)]).2 =
      [BtnEvent.press, BtnEvent.press] := by decide

/-- C1 amended: a logical-press edge that passes the debounce gate is
processed unconditionally — even while the line is already pressed it emits
PRESS again and restarts the press timing, so PRESS can recur within one
logical press; release-while-released, by contrast, emits nothing and
changes only `last_edge_ms`. -/
theorem press_edge_unconditional (cfg : BtnsConfig) (b b' : BtnState)
    (level t level' t' : Nat)
    (hacc : cfg.debounce_ms ≤ sub32 t b.last_edge_ms)
    (hl : (if b.active_low then level == 0 else level == 1) = true)
    (hacc' : cfg.debounce_ms ≤ sub32 t' b'.last_edge_ms)
    (hl' : (if b'.active_low then level' == 0 else level' == 1) = false)
    (hp' : b'.pressed = false) :
    edgeStep cfg b level t =
      ({ b with last_edge_ms := t, pressed := true, down_ms := t,
                hold_fired := false, last_repeat_ms := t }, [BtnEvent.press]) ∧
    edgeStep cfg b' level' t' = ({ b' with last_edge_ms := t' }, []) := by
  constructor
  · unfold edgeStep
    simp [Nat.not_lt.mpr hacc, hl]
  · unfold edgeStep
    simp [Nat.not_lt.mpr hacc', hl', hp']

theorem press_edge_unconditional_witness :
    edgeStep cfg0 linePressed 1 200 =
      ({ linePressed with last_edge_ms := 200, pressed := true,
                          down_ms := 200, hold_fired := false,
                          last_repeat_ms := 200 }, [BtnEvent.press]) ∧
    edgeStep cfg0 line0 0 50 = ({ line0 with last_edge_ms := 50 }, []) :=
  press_edge_unconditional cfg0 linePressed line0 1 200 0 50
    (by decide) (by decide) (by decide) (by decide) (by decide)

/-- C2 counterexample: after press at 100, HOLD firing at 700 and an accepted
release at 800, the reachable state `lineAfterRelease` has
`pressed = false` while `hold_fired` is still `true` — RELEASE did not reset
them together. -/
theorem hold_fired_survives_release_cex :
    lineHeld.pressed = true ∧ lineHeld.hold_fired = true ∧
    (edgeStep cfg0 lineHeld 0 800).2 = [BtnEvent.release] ∧
    lineAfterRelease.pressed = false ∧ lineAfterRelease.hold_fired = true := by
  decide

/-- C2 amended: an accepted release clears only `pressed` and leaves
`hold_fired` with its previous value; `hold_fired` is reset to false by the
next accepted press instead, and while a line is not pressed the scanner
emits nothing and changes nothing, so the stale flag is unobservable. -/
theorem release_clears_only_pressed (cfg : BtnsConfig) (b c : BtnState)
    (level t u : Nat)
    (hacc : cfg.debounce_ms ≤ sub32 t b.last_edge_ms)
    (hl : (if b.active_low then level == 0 else level == 1) = false)
    (hp : b.pressed = true)
    (hc : c.pressed = false) :
    (edgeStep cfg b level t).1.pressed = false ∧
    (edgeStep cfg b level t).1.hold_fired = b.hold_fired ∧
    tickStep cfg c u = (c, []) := by
  refine ⟨?_, ?_, tickStep_idle cfg c u hc⟩ <;>
  · unfold edgeStep
    simp [Nat.not_lt.mpr hacc, hl, hp]
    split_ifs <;> rfl

theorem release_clears_only_pressed_witness :
    (edgeStep cfg0 lineHeld 0 800).1.pressed = false ∧
    (edgeStep cfg0 lineHeld 0 800).1.hold_fired = lineHeld.hold_fired ∧
    tickStep cfg0 line0 700 = (line0, []) :=
  release_clears_only_pressed cfg0 lineHeld line0 0 800 700
    (by decide) (by decide) (by decide) (by decide)

/-- C3: an accepted release edge while logically pressed emits RELEASE, and
CLICK exactly when the press duration `t - down_ms` is strictly below
`hold_ms`; at the boundary `duration = hold_ms` CLICK is absent while the
scanner fires HOLD at that same instant. -/
theorem release_click_iff_short (cfg : BtnsConfig) (b c : BtnState)
    (level t : Nat)
    (hm : b.last_edge_ms ≤ t) (h32 : t < 4294967296)
    (hacc : cfg.debounce_ms ≤ t - b.last_edge_ms)
    (hl : (if b.active_low then level == 0 else level == 1) = false)
    (hp : b.pressed = true)
    (hdm : b.down_ms ≤ t)
    (hcp : c.pressed = true) (hcf : c.hold_fired = false)
    (hcd : c.down_ms ≤ t) (hcb : t - c.down_ms = cfg.hold_ms) :
    (edgeStep cfg b level t).2 =
      BtnEvent.release ::
        (if t - b.down_ms < cfg.hold_ms then [BtnEvent.click] else []) ∧
    (edgeStep cfg b level t).1.pressed = false ∧
    (BtnEvent.click ∈ (edgeStep cfg b level t).2 ↔ t - b.down_ms < cfg.hold_ms) ∧
    (t - b.down_ms = cfg.hold_ms → BtnEvent.click ∉ (edgeStep cfg b level t).2) ∧
    BtnEvent.hold ∈ (tickStep cfg c t).2 := by
  have hsl : sub32 t b.last_edge_ms = t - b.last_edge_ms := sub32_of_le t _ hm h32
  have hsd : sub32 t b.down_ms = t - b.down_ms := sub32_of_le t _ hdm h32
  have hsc : sub32 t c.down_ms = t - c.down_ms := sub32_of_le t _ hcd h32
  have hfire := tickStep_fires cfg c t hcp hcf (by rw [hsc, hcb])
  have hstep : edgeStep cfg b level t =
      ({ b with last_edge_ms := t, pressed := false },
       BtnEvent.release ::
         (if t - b.down_ms < cfg.hold_ms then [BtnEvent.click] else [])) := by
    unfold edgeStep
    rw [hsl]
    simp [Nat.not_lt.mpr hacc, hl, hp, hsd]
    split_ifs <;> simp
  rw [hstep, hfire]
  refine ⟨rfl, rfl, ?_, ?_, by simp⟩
  · split_ifs with h <;> simp [h]
  · intro hb
    split_ifs with h
    · omega
    · simp

theorem release_click_iff_short_witness :
    (edgeStep cfg0 linePressed 0 700).2 =
      BtnEvent.release ::
        (if 700 - linePressed.down_ms < cfg0.hold_ms then [BtnEvent.click] else []) ∧
    (edgeStep cfg0 linePressed 0 700).1.pressed = false ∧
    (BtnEvent.click ∈ (edgeStep cfg0 linePressed 0 700).2 ↔
      700 - linePressed.down_ms < cfg0.hold_ms) ∧
    (700 - linePressed.down_ms = cfg0.hold_ms →
      BtnEvent.click ∉ (edgeStep cfg0 linePressed 0 700).2) ∧
    BtnEvent.hold ∈ (tickStep cfg0 linePressed 700).2 :=
  release_click_iff_short cfg0 linePressed linePressed 0 700
    (by decide) (by decide) (by decide) (by decide) (by decide) (by decide)
    (by decide) (by decide) (by decide) (by decide)

/-! ## Alternating press/release sequences -/

/-- The raw level a press edge reports for a line of the given polarity. -/
def pressLevel (al : Bool) : Nat := if al then 0 else 1

/-- The raw level a release edge reports for a line of the given polarity. -/
def releaseLevel (al : Bool) : Nat := if al then 1 else 0

/-- The edge stream of alternating press/release pairs
`(press-time, release-time)` for a line of polarity `al`. -/
def altEdges (al : Bool) (prs : List (Nat × Nat)) : List (Nat × Nat) :=
  prs.flatMap (fun pr => [(pressLevel al, pr.1), (releaseLevel al, pr.2)])

/-- Every edge of the alternating stream is spaced at least `debounce_ms`
after the previous edge (the C comparison, on the 32-bit clock), starting
from a last accepted edge at `last`. -/
def wellSpaced (cfg : BtnsConfig) : Nat → List (Nat × Nat) → Bool
  | _, [] => true
  | last, pr :: rest =>
      decide (cfg.debounce_ms ≤ sub32 pr.1 last) &&
      decide (cfg.debounce_ms ≤ sub32 pr.2 pr.1) && wellSpaced cfg pr.2 rest

/-- The event stream the engine produces for those pairs: per press, PRESS
then RELEASE, then CLICK exactly when the press was shorter than `hold_ms`. -/
def cycleEvents (cfg : BtnsConfig) (prs : List (Nat × Nat)) : List BtnEvent :=
  prs.flatMap (fun pr =>
    [BtnEvent.press, BtnEvent.release] ++
      (if sub32 pr.2 pr.1 < cfg.hold_ms then [BtnEvent.click] else []))

theorem edgeStep_press (cfg : BtnsConfig) (b : BtnState) (level t : Nat)
    (hacc : cfg.debounce_ms ≤ sub32 t b.last_edge_ms)
    (hl : (if b.active_low then level == 0 else level == 1) = true) :
    edgeStep cfg b level t =
      ({ b with last_edge_ms := t, pressed := true, down_ms := t,
                hold_fired := false, last_repeat_ms := t }, [BtnEvent.press]) := by
  unfold edgeStep
  simp [Nat.not_lt.mpr hacc, hl]

theorem edgeStep_release (cfg : BtnsConfig) (b : BtnState) (level t : Nat)
    (hacc : cfg.debounce_ms ≤ sub32 t b.last_edge_ms)
    (hl : (if b.active_low then level == 0 else level == 1) = false)
    (hp : b.pressed = true) :
    edgeStep cfg b level t =
      ({ b with last_edge_ms := t, pressed := false },
       BtnEvent.release ::
         (if sub32 t b.down_ms < cfg.hold_ms then [BtnEvent.click] else [])) := by
  unfold edgeStep
  simp [Nat.not_lt.mpr hacc, hl, hp]
  split_ifs <;> simp

/-- C7 counterexample: for the accepted press at 100 and release at 250
(spacing 150 ≥ debounce 12, duration 150 < hold 600) the engine emits
PRESS, RELEASE, CLICK — CLICK comes after RELEASE, not between PRESS and
RELEASE as the claim orders them. -/
theorem click_after_release_cex :
    (runEdges cfg0 line0 [(1, 100), (0, 250)]).2 =
      [BtnEvent.press, BtnEvent.release, BtnEvent.click] ∧
    [BtnEvent.press, BtnEvent.release, BtnEvent.click] ≠
      [BtnEvent.press, BtnEvent.click, BtnEvent.release] := by decide

/-- C7 amended: for every sequence of alternating press/release edges spaced
at least `debounce_ms` apart, the events per press are PRESS, then RELEASE,
then CLICK — CLICK present iff the press duration is below `hold_ms` —
concatenated in the order the producer generated them. -/
theorem alternating_cycle_events (cfg : BtnsConfig) (b : BtnState) (al : Bool)
    (prs : List (Nat × Nat))
    (hal : b.active_low = al) (hp : b.pressed = false)
    (hw : wellSpaced cfg b.last_edge_ms prs = true) :
    (runEdges cfg b (altEdges al prs)).2 = cycleEvents cfg prs ∧
    (runEdges cfg b (altEdges al prs)).1.pressed = false := by
  induction prs generalizing b with
  | nil => simp [altEdges, cycleEvents, runEdges, hp]
  | cons pr rest ih =>
      obtain ⟨tp, tr⟩ := pr
      simp only [wellSpaced, Bool.and_eq_true, decide_eq_true_eq] at hw
      obtain ⟨⟨h1, h2⟩, h3⟩ := hw
      have hlp : (if b.active_low then pressLevel al == 0
                  else pressLevel al == 1) = true := by
        cases al <;> simp [pressLevel, hal]
      have hstep1 := edgeStep_press cfg b (pressLevel al) tp h1 hlp
      set b1 : BtnState :=
        { b with last_edge_ms := tp, pressed := true, down_ms := tp,
                 hold_fired := false, last_repeat_ms := tp } with hb1
      have hlr : (if b1.active_low then releaseLevel al == 0
                  else releaseLevel al == 1) = false := by
        cases al <;> simp [releaseLevel, hb1, hal]
      have hstep2 := edgeStep_release cfg b1 (releaseLevel al) tr
        (by simp [hb1]; exact h2) hlr (by simp [hb1])
      have hrec := ih { b1 with last_edge_ms := tr, pressed := false }
        (by simp [hb1, hal]) (by simp) (by simpa [hb1] using h3)
      simp only [altEdges, List.flatMap_cons, List.cons_append,
        List.nil_append] at hrec ⊢
      simp only [runEdges, hstep1, hstep2, cycleEvents, List.flatMap_cons,
        List.cons_append, List.nil_append]
      simp only [cycleEvents] at hrec
      refine ⟨?_, hrec.2⟩
      rw [hrec.1]
      simp [hb1]

theorem alternating_cycle_events_witness :
    (runEdges cfg0 line0 (altEdges false [(100, 250), (300, 1000)])).2 =
      cycleEvents cfg0 [(100, 250), (300, 1000)] ∧
    (runEdges cfg0 line0 (altEdges false [(100, 250), (300, 1000)])).1.pressed
      = false :=
  alternating_cycle_events cfg0 line0 false [(100, 250), (300, 1000)]
    (by decide) (by decide) (by decide)

/-! ## HOLD: one-shot firing at or after the threshold -/

theorem tickStep_hold_mem (cfg : BtnsConfig) (b : BtnState) (t : Nat) :
    BtnEvent.hold ∈ (tickStep cfg b t).2 ↔
      b.pressed = true ∧ b.hold_fired = false ∧
        cfg.hold_ms ≤ sub32 t b.down_ms := by
  cases hp : b.pressed with
  | false => simp [tickStep_idle cfg b t hp, hp]
  | true =>
      cases hf : b.hold_fired with
      | false =>
          by_cases hge : cfg.hold_ms ≤ sub32 t b.down_ms
          · simp [tickStep_fires cfg b t hp hf hge, hp, hf, hge]
          · simp [tickStep_waiting cfg b t hp hf (Nat.not_le.mp hge), hp, hf, hge]
      | true =>
          by_cases hr : cfg.repeat_ms = 0
          · simp [tickStep_holding_wait cfg b t hp hf (Or.inl hr), hf]
          · by_cases hge : cfg.repeat_ms ≤ sub32 t b.last_repeat_ms
            · simp [tickStep_repeat cfg b t hp hf hr hge, hf]
            · simp [tickStep_holding_wait cfg b t hp hf
                (Or.inr (Nat.not_le.mp hge)), hf]

theorem runTicks_hold_count_fired (cfg : BtnsConfig) (b : BtnState)
    (ts : List Nat) (hf : b.hold_fired = true) :
    (runTicks cfg b ts).2.count BtnEvent.hold = 0 := by
  induction ts generalizing b with
  | nil => rfl
  | cons t ts ih =>
      have hmem : BtnEvent.hold ∉ (tickStep cfg b t).2 := by
        rw [tickStep_hold_mem]
        rintro ⟨-, hcontra, -⟩
        rw [hf] at hcontra
        exact absurd hcontra (by simp)
      simp [runTicks, List.count_append,
        ih _ (tickStep_hold_fired_true cfg b t hf),
        List.count_eq_zero.mpr hmem]

theorem runTicks_hold_count_one (cfg : BtnsConfig) (p : Nat) (ts : List Nat) :
    ∀ b : BtnState, b.pressed = true → b.hold_fired = false → b.down_ms = p →
    (∀ t ∈ ts, p ≤ t ∧ t < 4294967296) →
    (∃ t ∈ ts, cfg.hold_ms ≤ t - p) →
    (runTicks cfg b ts).2.count BtnEvent.hold = 1 := by
  induction ts with
  | nil => intro b _ _ _ _ hex; simp at hex
  | cons t ts ih =>
      intro b hp hf hd hmono hex
      obtain ⟨hpt, ht32⟩ := hmono t (List.mem_cons_self t ts)
      have hs : sub32 t b.down_ms = t - p := by
        rw [hd]; exact sub32_of_le t p hpt ht32
      by_cases hge : cfg.hold_ms ≤ t - p
      · have hfire := tickStep_fires cfg b t hp hf (by rw [hs]; exact hge)
        have hrest := runTicks_hold_count_fired cfg
          { b with hold_fired := true, last_repeat_ms := t } ts rfl
        simp [runTicks, hfire, List.count_append, hrest]
      · have hwait := tickStep_waiting cfg b t hp hf (by rw [hs]; omega)
        have hex' : ∃ u ∈ ts, cfg.hold_ms ≤ u - p := by
          obtain ⟨u, hu, hgu⟩ := hex
          rcases List.mem_cons.mp hu with rfl | hu'
          · omega
          · exact ⟨u, hu', hgu⟩
        simp only [runTicks, hwait, List.nil_append]
        exact ih b hp hf hd (fun u hu => hmono u (List.mem_cons_of_mem t hu)) hex'

/-- The tick times of a run at which the scanner emits HOLD. -/
def holdTicks (cfg : BtnsConfig) (b : BtnState) : List Nat → List Nat
  | [] => []
  | t :: ts =>
      let r := tickStep cfg b t
      (if BtnEvent.hold ∈ r.2 then [t] else []) ++ holdTicks cfg r.1 ts

theorem holdTicks_ge (cfg : BtnsConfig) (p : Nat) (ts : List Nat) :
    ∀ b : BtnState, b.down_ms = p →
    (∀ t ∈ ts, p ≤ t ∧ t < 4294967296) →
    (holdTicks cfg b ts).all (fun t => decide (cfg.hold_ms ≤ t - p)) = true := by
  induction ts with
  | nil => intro b _ _; rfl
  | cons t ts ih =>
      intro b hd hmono
      obtain ⟨hpt, ht32⟩ := hmono t (List.mem_cons_self t ts)
      have htail := ih (tickStep cfg b t).1 (by rw [tickStep_down_ms, hd])
        (fun u hu => hmono u (List.mem_cons_of_mem t hu))
      by_cases hmem : BtnEvent.hold ∈ (tickStep cfg b t).2
      · obtain ⟨-, -, hge⟩ := (tickStep_hold_mem cfg b t).mp hmem
        rw [hd, sub32_of_le t p hpt ht32] at hge
        simp [holdTicks, hmem, htail, hge]
      · simp [holdTicks, hmem, htail]

/-- C4: for a press held through a sequence of scanner ticks with no
intervening release, once some tick reaches `hold_ms` exactly one HOLD is
emitted over the whole run, and every tick at which HOLD is emitted has
`now - press_time ≥ hold_ms` — HOLD never fires early. -/
theorem hold_fired_exactly_once (cfg : BtnsConfig) (b : BtnState)
    (ts : List Nat) (p : Nat)
    (hp : b.pressed = true) (hf : b.hold_fired = false) (hd : b.down_ms = p)
    (hmono : ∀ t ∈ ts, p ≤ t ∧ t < 4294967296)
    (hex : ∃ t ∈ ts, cfg.hold_ms ≤ t - p) :
    (runTicks cfg b ts).2.count BtnEvent.hold = 1 ∧
    (holdTicks cfg b ts).all (fun t => decide (cfg.hold_ms ≤ t - p)) = true :=
  ⟨runTicks_hold_count_one cfg p ts b hp hf hd hmono hex,
   holdTicks_ge cfg p ts b hd hmono⟩

theorem hold_fired_exactly_once_witness :
    (runTicks cfg0 linePressed [300, 700, 800]).2.count BtnEvent.hold = 1 ∧
    (holdTicks cfg0 linePressed [300, 700, 800]).all
      (fun t => decide (cfg0.hold_ms ≤ t - 100)) = true :=
  hold_fired_exactly_once cfg0 linePressed [300, 700, 800] 100
    (by decide) (by decide) (by decide) (by decide) (by decide)

/-! ## REPEAT: gating and cadence counting -/

theorem tickStep_repeat_mem (cfg : BtnsConfig) (b : BtnState) (t : Nat)
    (h : BtnEvent.repeatE ∈ (tickStep cfg b t).2) :
    b.pressed = true ∧ b.hold_fired = true ∧ cfg.repeat_ms ≠ 0 ∧
    cfg.repeat_ms ≤ sub32 t b.last_repeat_ms ∧
    (tickStep cfg b t).1.last_repeat_ms = t := by
  cases hp : b.pressed with
  | false => rw [tickStep_idle cfg b t hp] at h; simp at h
  | true =>
      cases hf : b.hold_fired with
      | false =>
          by_cases hge : cfg.hold_ms ≤ sub32 t b.down_ms
          · rw [tickStep_fires cfg b t hp hf hge] at h; simp at h
          · rw [tickStep_waiting cfg b t hp hf (Nat.not_le.mp hge)] at h
            simp at h
      | true =>
          by_cases hr : cfg.repeat_ms = 0
          · rw [tickStep_holding_wait cfg b t hp hf (Or.inl hr)] at h
            simp at h
          · by_cases hge : cfg.repeat_ms ≤ sub32 t b.last_repeat_ms
            · exact ⟨rfl, rfl, hr, hge,
                by simp [tickStep_repeat cfg b t hp hf hr hge]⟩
            · rw [tickStep_holding_wait cfg b t hp hf
                (Or.inr (Nat.not_le.mp hge))] at h
              simp at h

/-- Tick times `p, p + 1, ..., p + D`: a scanner observing every
millisecond of a press that starts at `p` and lasts `D`. -/
def denseTicks (p D : Nat) : List Nat := (List.range (D + 1)).map (fun i => p + i)

theorem denseTicks_succ (p k : Nat) :
    denseTicks p (k + 1) = denseTicks p k ++ [p + (k + 1)] := by
  simp [denseTicks, List.range_succ]

theorem dense_run_inv (cfg : BtnsConfig) (b : BtnState) (p : Nat)
    (hp : b.pressed = true) (hf : b.hold_fired = false) (hd : b.down_ms = p)
    (hR : cfg.repeat_ms ≠ 0) :
    ∀ k, p + k < 4294967296 →
      if k < cfg.hold_ms then runTicks cfg b (denseTicks p k) = (b, [])
      else
        (runTicks cfg b (denseTicks p k)).1 =
          { b with hold_fired := true,
                   last_repeat_ms := p + cfg.hold_ms +
                     cfg.repeat_ms * ((k - cfg.hold_ms) / cfg.repeat_ms) } ∧
        (runTicks cfg b (denseTicks p k)).2.count BtnEvent.repeatE =
          (k - cfg.hold_ms) / cfg.repeat_ms := by
  have hpos : 0 < cfg.repeat_ms := Nat.pos_of_ne_zero hR
  intro k
  induction k with
  | zero =>
      intro h32
      have hsub : sub32 p b.down_ms = 0 := by rw [hd, sub32_self]
      by_cases hH : 0 < cfg.hold_ms
      · simp only [hH, if_true]
        have := tickStep_waiting cfg b p hp hf (by rw [hsub]; exact hH)
        simp [denseTicks, runTicks, this]
      · have hH0 : cfg.hold_ms = 0 := by omega
        simp only [hH0, Nat.lt_irrefl, if_false, Nat.not_lt]
        have hfire := tickStep_fires cfg b p hp hf (by rw [hsub, hH0])
        simp [denseTicks, runTicks, hfire, hH0, Nat.zero_div]
  | succ k ih =>
      intro h32
      have hk32 : p + k < 4294967296 := by omega
      have ihk := ih hk32
      rw [denseTicks_succ, runTicks_append]
      by_cases hlt : k + 1 < cfg.hold_ms
      · -- still waiting after the new tick as well
        have hklt : k < cfg.hold_ms := by omega
        rw [if_pos hklt] at ihk
        have hsub : sub32 (p + (k + 1)) b.down_ms = k + 1 := by
          rw [hd, sub32_of_le _ _ (by omega) h32]; omega
        have hwait := tickStep_waiting cfg b (p + (k + 1)) hp hf
          (by rw [hsub]; exact hlt)
        simp [hlt, ihk, runTicks, hwait]
      · rw [if_neg hlt]
        by_cases hklt : k < cfg.hold_ms
        · -- the new tick is exactly the hold deadline
          have hH : cfg.hold_ms = k + 1 := by omega
          rw [if_pos hklt] at ihk
          have hsub : sub32 (p + (k + 1)) b.down_ms = k + 1 := by
            rw [hd, sub32_of_le _ _ (by omega) h32]; omega
          have hfire := tickStep_fires cfg b (p + (k + 1)) hp hf
            (by rw [hsub, hH])
          simp [ihk, runTicks, hfire, hH]
        · -- already holding: the new tick may or may not be a repeat tick
          rw [if_neg hklt] at ihk
          obtain ⟨hst, hcount⟩ := ihk
          set m := k - cfg.hold_ms with hm
          set q := m / cfg.repeat_ms with hq
          set r := m % cfg.repeat_ms with hr
          have hdm : cfg.repeat_ms * q + r = m := Nat.div_add_mod m cfg.repeat_ms
          have hrlt : r < cfg.repeat_ms := Nat.mod_lt m hpos
          have hqle : cfg.repeat_ms * q ≤ m := by omega
          have hsp : (runTicks cfg b (denseTicks p k)).1.pressed = true := by
            rw [hst]; exact hp
          have hsf : (runTicks cfg b (denseTicks p k)).1.hold_fired = true := by
            rw [hst]
          have hlr : (runTicks cfg b (denseTicks p k)).1.last_repeat_ms =
              p + cfg.hold_ms + cfg.repeat_ms * q := by rw [hst]
          have hsub : sub32 (p + (k + 1))
              (runTicks cfg b (denseTicks p k)).1.last_repeat_ms = r + 1 := by
            rw [hlr, sub32_of_le _ _ (by omega) h32]; omega
          by_cases hrep : r + 1 = cfg.repeat_ms
          · -- repeat fires at this tick
            have hms : cfg.repeat_ms * (q + 1) =
                cfg.repeat_ms * q + cfg.repeat_ms := by ring
            have hdiv : (m + 1) / cfg.repeat_ms = q + 1 := by
              have hme : m + 1 = cfg.repeat_ms * (q + 1) := by omega
              rw [hme, Nat.mul_div_cancel_left _ hpos]
            have hstep := tickStep_repeat cfg
              (runTicks cfg b (denseTicks p k)).1 (p + (k + 1)) hsp hsf hR
              (by rw [hsub]; omega)
            have hm1 : k + 1 - cfg.hold_ms = m + 1 := by omega
            refine ⟨?_, ?_⟩
            · simp only [runTicks, hstep]
              rw [hst, hm1, hdiv]
              have hpk : p + (k + 1) =
                  p + cfg.hold_ms + cfg.repeat_ms * (q + 1) := by omega
              simp [hpk]
            · simp only [runTicks, hstep]
              rw [List.count_append, hcount, hm1, hdiv]
              simp
          · -- not yet a repeat boundary: nothing happens
            have hdiv : (m + 1) / cfg.repeat_ms = q := by
              have hme : m + 1 = (r + 1) + cfg.repeat_ms * q := by omega
              rw [hme, Nat.add_mul_div_left _ _ hpos,
                Nat.div_eq_of_lt (by omega)]
              omega
            have hstep := tickStep_holding_wait cfg
              (runTicks cfg b (denseTicks p k)).1 (p + (k + 1)) hsp hsf
              (Or.inr (by rw [hsub]; omega))
            have hm1 : k + 1 - cfg.hold_ms = m + 1 := by omega
            refine ⟨?_, ?_⟩
            · simp only [runTicks, hstep]
              rw [hst, hm1, hdiv]
            · simp only [runTicks, hstep]
              rw [List.count_append, hcount, hm1, hdiv]
              simp [runTicks]

/-- C5: REPEAT is emitted only when `hold_fired` was already true, only while
the line is still pressed and only when the repeat interval is non-zero, and
each REPEAT resets `last_repeat_ms` so consecutive REPEATs are at least the
interval apart; and for a press of duration `D ≥ hold_ms` observed by a
scanner ticking every millisecond, the number of REPEATs equals
`(D - hold_ms) / repeat_ms`. -/
theorem repeat_gating_and_count (cfg : BtnsConfig) (b b' : BtnState)
    (p D t' : Nat)
    (hrep : BtnEvent.repeatE ∈ (tickStep cfg b' t').2)
    (hp : b.pressed = true) (hf : b.hold_fired = false) (hd : b.down_ms = p)
    (hR : cfg.repeat_ms ≠ 0) (hH : cfg.hold_ms ≤ D)
    (h32 : p + D < 4294967296) :
    (b'.pressed = true ∧ b'.hold_fired = true ∧ cfg.repeat_ms ≠ 0 ∧
     cfg.repeat_ms ≤ sub32 t' b'.last_repeat_ms ∧
     (tickStep cfg b' t').1.last_repeat_ms = t') ∧
    (runTicks cfg b (denseTicks p D)).2.count BtnEvent.repeatE =
      (D - cfg.hold_ms) / cfg.repeat_ms := by
  refine ⟨tickStep_repeat_mem cfg b' t' hrep, ?_⟩
  have := dense_run_inv cfg b p hp hf hd hR D h32
  rw [if_neg (by omega)] at this
  exact this.2

theorem repeat_gating_and_count_witness :
    (lineHeld.pressed = true ∧ lineHeld.hold_fired = true ∧
     cfgR.repeat_ms ≠ 0 ∧
     cfgR.repeat_ms ≤ sub32 900 lineHeld.last_repeat_ms ∧
     (tickStep cfgR lineHeld 900).1.last_repeat_ms = 900) ∧
    (runTicks cfgR linePressed (denseTicks 100 1000)).2.count BtnEvent.repeatE =
      (1000 - cfgR.hold_ms) / cfgR.repeat_ms :=
  repeat_gating_and_count cfgR linePressed lineHeld 100 1000 900
    (by decide) (by decide) (by decide) (by decide) (by decide) (by decide)
    (by decide)
